import Mathlib

/-!
Verification development for the at.hn profile server.

The JavaScript source is shallowly embedded: strings are `List Char`,
the name codec and the opt-in regular expression are executable Lean
functions translated from the code, the cache tiers are association
lists carrying insertion times, and the requester-side timeout race is
a small event semantics over the `responseSent` / race-resolution flags.
External npm libraries (marked, sanitize-html, he, the HTTP stack) are
treated as opaque parameters; only logic owned by this repository is
modelled.
-/

set_option maxRecDepth 4000

/-! ## Name codec (encodeUsername / decodeUsername) -/

/-- The alphabet of JavaScript word characters, `[A-Za-z0-9_]`. -/
def wAlphaStr : List Char :=
  "ABCDEFGHIJKLMNOPQRSTUVWXYZabcdefghijklmnopqrstuvwxyz0123456789_".toList

/-- One character of `encodeUsername`: an uppercase letter becomes
`0.` followed by its lowercase form, an underscore becomes `.1.`,
anything else passes through. -/
def encodeChar (c : Char) : List Char :=
  if 'A' ≤ c ∧ c ≤ 'Z' then ['0', '.', Char.toLower c]
  else if c = '_' then ['.', '1', '.']
  else [c]

/-- `encodeUsername` from the source: per-character map, concatenated. -/
def encodeUsername : List Char → List Char
  | [] => []
  | c :: rest => encodeChar c ++ encodeUsername rest

/-- First pass of `decodeUsername`: the global replace of `/0\.(.)/`
by the uppercased captured character.  The scanner tries the pattern at
each position left to right; `.` does not match a newline. -/
def pass1 : List Char → List Char
  | [] => []
  | [a] => [a]
  | [a, b] => [a, b]
  | a :: b :: c :: rest =>
    if a = '0' ∧ b = '.' ∧ c ≠ '\n' then Char.toUpper c :: pass1 rest
    else a :: pass1 (b :: c :: rest)

/-- Second pass of `decodeUsername`: the global replace of `/\.1\./`
by an underscore. -/
def pass2 : List Char → List Char
  | [] => []
  | [a] => [a]
  | [a, b] => [a, b]
  | a :: b :: c :: rest =>
    if a = '.' ∧ b = '1' ∧ c = '.' then '_' :: pass2 rest
    else a :: pass2 (b :: c :: rest)

/-- `decodeUsername` from the source: the two regex replaces in order. -/
def decodeUsername (s : List Char) : List Char := pass2 (pass1 s)

/-- `true` when no character `0` is immediately followed by `_`.
Such a pair encodes to `0.1.`, which the first decode pass consumes
as a `0.`-escape, breaking the round trip. -/
def okPair : List Char → Bool
  | [] => true
  | [_] => true
  | a :: b :: r => !(a == '0' && b == '_') && okPair (b :: r)

/-- Intermediate form after undoing the uppercase escapes: only the
underscore escape `.1.` remains. -/
def midForm : List Char → List Char
  | [] => []
  | c :: rest => (if c = '_' then ['.', '1', '.'] else [c]) ++ midForm rest

lemma alphaFacts : ∀ c ∈ wAlphaStr,
    c ≠ '.' ∧ c ≠ '\n' ∧
    (('A' ≤ c ∧ c ≤ 'Z') →
      (Char.toUpper (Char.toLower c) = c ∧ Char.toLower c ≠ '\n' ∧ c ≠ '_')) := by
  decide

lemma okPair_tail {a : Char} {r : List Char} (h : okPair (a :: r) = true) :
    okPair r = true := by
  cases r with
  | nil => rfl
  | cons b r' =>
    have h' : (!(a == '0' && b == '_') && okPair (b :: r')) = true := h
    exact (Bool.and_eq_true _ _ |>.mp h').2

lemma okPair_zero {b : Char} {r : List Char} (h : okPair ('0' :: b :: r) = true) :
    b ≠ '_' := by
  intro hb
  subst hb
  have h' : (!(('0' : Char) == '0' && ('_' : Char) == '_') && okPair ('_' :: r)) = true := h
  simp at h'

lemma pass1_consNe (b : Char) (t : List Char) (hb : b ≠ '0') :
    pass1 (b :: t) = b :: pass1 t := by
  cases t with
  | nil => rfl
  | cons x t' =>
    cases t' with
    | nil => rfl
    | cons y t'' =>
      show pass1 (b :: x :: y :: t'') = b :: pass1 (x :: y :: t'')
      rw [pass1, if_neg]
      intro hc
      exact hb hc.1

lemma pass1_zeroConsNe (e : Char) (t : List Char) (he : e ≠ '.') :
    pass1 ('0' :: e :: t) = '0' :: pass1 (e :: t) := by
  cases t with
  | nil => rfl
  | cons y t' =>
    show pass1 ('0' :: e :: y :: t') = '0' :: pass1 (e :: y :: t')
    rw [pass1, if_neg]
    intro hc
    exact he hc.2.1

lemma pass2_consNe (b : Char) (t : List Char) (hb : b ≠ '.') :
    pass2 (b :: t) = b :: pass2 t := by
  cases t with
  | nil => rfl
  | cons x t' =>
    cases t' with
    | nil => rfl
    | cons y t'' =>
      show pass2 (b :: x :: y :: t'') = b :: pass2 (x :: y :: t'')
      rw [pass2, if_neg]
      intro hc
      exact hb hc.1

lemma pass1_encode : ∀ x : List Char, (∀ c ∈ x, c ∈ wAlphaStr) → okPair x = true →
    pass1 (encodeUsername x) = midForm x := by
  intro x
  induction x with
  | nil => intro _ _; rfl
  | cons c rest ih =>
    intro hA hP
    have hc : c ∈ wAlphaStr := hA c (List.mem_cons_self _ _)
    have hrest : ∀ d ∈ rest, d ∈ wAlphaStr := fun d hd => hA d (List.mem_cons_of_mem _ hd)
    have hPr : okPair rest = true := okPair_tail hP
    by_cases hU : 'A' ≤ c ∧ c ≤ 'Z'
    · have henc : encodeUsername (c :: rest) =
        '0' :: '.' :: Char.toLower c :: encodeUsername rest := by
        show encodeChar c ++ encodeUsername rest = _
        rw [encodeChar, if_pos hU]
        rfl
      have hfacts := (alphaFacts c hc).2.2 hU
      rw [henc]
      have h3 : pass1 ('0' :: '.' :: Char.toLower c :: encodeUsername rest) =
          Char.toUpper (Char.toLower c) :: pass1 (encodeUsername rest) := by
        cases hE : encodeUsername rest with
        | nil => simp [pass1, hfacts.2.1]
        | cons e es =>
          rw [pass1, if_pos ⟨rfl, rfl, hfacts.2.1⟩]
      rw [h3, hfacts.1, ih hrest hPr]
      have : midForm (c :: rest) = c :: midForm rest := by
        rw [midForm, if_neg hfacts.2.2]
        rfl
      rw [this]
    · by_cases hUnd : c = '_'
      · subst hUnd
        have henc : encodeUsername ('_' :: rest) =
            '.' :: '1' :: '.' :: encodeUsername rest := by
          show encodeChar '_' ++ encodeUsername rest = _
          rfl
        rw [henc, pass1_consNe '.' _ (by decide), pass1_consNe '1' _ (by decide),
          pass1_consNe '.' _ (by decide), ih hrest hPr]
        rfl
      · have henc : encodeUsername (c :: rest) = c :: encodeUsername rest := by
          show encodeChar c ++ encodeUsername rest = _
          rw [encodeChar, if_neg hU, if_neg hUnd]
          rfl
        have hmid : midForm (c :: rest) = c :: midForm rest := by
          rw [midForm, if_neg hUnd]
          rfl
        rw [henc, hmid]
        by_cases h0 : c = '0'
        · subst h0
          cases rest with
          | nil => rfl
          | cons d r' =>
            have hd : d ∈ wAlphaStr := hrest d (List.mem_cons_self _ _)
            have hdU : d ≠ '_' := okPair_zero hP
            have step : pass1 ('0' :: encodeUsername (d :: r')) =
                '0' :: pass1 (encodeUsername (d :: r')) := by
              have henc2 : encodeUsername (d :: r') = encodeChar d ++ encodeUsername r' := rfl
              by_cases hdUp : 'A' ≤ d ∧ d ≤ 'Z'
              · have : encodeChar d = ['0', '.', Char.toLower d] := by
                  rw [encodeChar, if_pos hdUp]
                rw [henc2, this]
                exact pass1_zeroConsNe '0' _ (by decide)
              · have : encodeChar d = [d] := by
                  rw [encodeChar, if_neg hdUp, if_neg hdU]
                rw [henc2, this]
                exact pass1_zeroConsNe d _ (alphaFacts d hd).1
            rw [step, ih hrest hPr]
        · rw [pass1_consNe c _ h0, ih hrest hPr]

lemma pass2_mid : ∀ x : List Char, (∀ c ∈ x, c ∈ wAlphaStr) →
    pass2 (midForm x) = x := by
  intro x
  induction x with
  | nil => intro _; rfl
  | cons c rest ih =>
    intro hA
    have hc : c ∈ wAlphaStr := hA c (List.mem_cons_self _ _)
    have hrest : ∀ d ∈ rest, d ∈ wAlphaStr := fun d hd => hA d (List.mem_cons_of_mem _ hd)
    by_cases hUnd : c = '_'
    · subst hUnd
      have hmid : midForm ('_' :: rest) = '.' :: '1' :: '.' :: midForm rest := by
        rw [midForm]
        rfl
      rw [hmid]
      have h3 : pass2 ('.' :: '1' :: '.' :: midForm rest) = '_' :: pass2 (midForm rest) := by
        cases hM : midForm rest with
        | nil => rfl
        | cons e es => rw [pass2, if_pos ⟨rfl, rfl, rfl⟩]
      rw [h3, ih hrest]
    · have hmid : midForm (c :: rest) = c :: midForm rest := by
        rw [midForm, if_neg hUnd]
        rfl
      rw [hmid, pass2_consNe c _ (alphaFacts c hc).1, ih hrest]

/-- Claim C1 (amended): for every account name over `[A-Za-z0-9_]` of
length below 255 in which no `0` is immediately followed by `_`,
`decodeUsername (encodeUsername x) = x`, and for the encoded form
`y = encodeUsername x` also `encodeUsername (decodeUsername y) = y`. -/
theorem c1_codec_roundTrip_amended (x : List Char)
    (hA : ∀ c ∈ x, c ∈ wAlphaStr) (_hL : x.length < 255) (hP : okPair x = true) :
    decodeUsername (encodeUsername x) = x ∧
    encodeUsername (decodeUsername (encodeUsername x)) = encodeUsername x := by
  have h1 : decodeUsername (encodeUsername x) = x := by
    rw [decodeUsername, pass1_encode x hA hP, pass2_mid x hA]
  exact ⟨h1, by rw [h1]⟩

/-- Claim C1 counterexample: the name `0_` lies in the claimed domain
(word characters, length below 255) yet `decodeUsername (encodeUsername
"0_")` is `"1."`, not `"0_"`: the encoded form `0.1.` is consumed by the
`/0\.(.)/` pass before the underscore escape can be recognised. -/
theorem c1_codec_roundTrip_cx :
    (∀ c ∈ ['0', '_'], c ∈ wAlphaStr) ∧
    List.length ['0', '_'] < 255 ∧
    decodeUsername (encodeUsername ['0', '_']) = ['1', '.'] ∧
    decodeUsername (encodeUsername ['0', '_']) ≠ ['0', '_'] := by
  decide

/-- Witness for C1 at the code comment's own example name. -/
theorem c1_codec_roundTrip_witness :
    decodeUsername (encodeUsername "Rally_Driver".toList) = "Rally_Driver".toList :=
  (c1_codec_roundTrip_amended "Rally_Driver".toList (by decide) (by decide) (by decide)).1

/-! ## The opt-in marker regular expression

`RegExp((<p>)?\s*?(https?://)?(DEC|ENC).at.hn\s*(</p>)?, i)` where `DEC`
and `ENC` are the decoded and encoded forms of the requested name.  A
matcher is a function from an input suffix to the list of all possible
remainders after a match starting at that position, in the backtracking
engine's preference order (head of the list is the match the engine
commits to). -/

/-- JavaScript whitespace characters relevant here (the ASCII members
of the `\s` class). -/
def isSpaceJs (c : Char) : Bool :=
  c == ' ' || c == '\t' || c == '\n' || c == '\x0b' || c == '\x0c' || c == '\r'

/-- Line terminators excluded by the `.` metacharacter. -/
def isLineTerm (c : Char) : Bool :=
  c == '\n' || c == '\r' || c == '\u2028' || c == '\u2029'

/-- Case-insensitive literal matching (the `i` flag): consume the
pattern characters, comparing lowercased. -/
def litMatch : List Char → List Char → Option (List Char)
  | [], s => some s
  | _ :: _, [] => none
  | p :: ps, c :: cs =>
    if Char.toLower c = Char.toLower p then litMatch ps cs else none

/-- Remainders after consuming 0, 1, 2, … leading whitespace
characters, shortest consumption first. -/
def wsRems : List Char → List (List Char)
  | [] => [[]]
  | c :: cs => (c :: cs) :: (if isSpaceJs c then wsRems cs else [])

/-- A case-insensitive literal as a matcher. -/
def mLit (p : List Char) (s : List Char) : List (List Char) :=
  match litMatch p s with
  | some r => [r]
  | none => []

/-- The `.` metacharacter: any single character except a line
terminator. -/
def mAny : List Char → List (List Char)
  | [] => []
  | c :: cs => if isLineTerm c then [] else [cs]

/-- Lazy `\s*?`: prefers consuming as little as possible. -/
def mWsL (s : List Char) : List (List Char) := wsRems s

/-- Greedy `\s*`: prefers consuming as much as possible. -/
def mWsG (s : List Char) : List (List Char) := (wsRems s).reverse

/-- Greedy `X?`: try the group first, then skip it. -/
def mOpt (m : List Char → List (List Char)) (s : List Char) : List (List Char) :=
  m s ++ [s]

/-- Alternation `X|Y`: left alternative preferred. -/
def mAlt (m1 m2 : List Char → List (List Char)) (s : List Char) : List (List Char) :=
  m1 s ++ m2 s

/-- Concatenation: every way of matching the first part, in order, is
continued by every way of matching the second. -/
def mSeq (m1 m2 : List Char → List (List Char)) (s : List Char) : List (List Char) :=
  ((m1 s).map m2).flatten

/-- A name interpolated into the pattern source: its `.` characters are
regex metacharacters (this is the unescaped-dot behaviour of the code),
everything else a case-insensitive literal. -/
def mChar (c : Char) : List Char → List (List Char) :=
  if c = '.' then mAny else mLit [c]

/-- A whole interpolated string as a matcher. -/
def mStr : List Char → List Char → List (List Char)
  | [] => fun s => [s]
  | c :: cs => mSeq (mChar c) (mStr cs)

/-- The `(https?://)?` group body. -/
def mScheme : List Char → List (List Char) :=
  mSeq (mLit "http".toList) (mSeq (mOpt (mLit "s".toList)) (mLit "://".toList))

/-- The compiled `userAddrCheckR` pattern for a given raw name. -/
def userAddrCheckM (u : List Char) : List Char → List (List Char) :=
  mSeq (mOpt (mLit "<p>".toList))
    (mSeq mWsL
      (mSeq (mOpt mScheme)
        (mSeq (mAlt (mStr (decodeUsername u)) (mStr (encodeUsername u)))
          (mSeq (mStr ".at.hn".toList)
            (mSeq mWsG (mOpt (mLit "</p>".toList)))))))

/-- `String.prototype.match` truthiness: scan positions left to right
and report whether any match exists. -/
def reTest (m : List Char → List (List Char)) : List Char → Bool
  | [] => !(m []).isEmpty
  | c :: cs => !(m (c :: cs)).isEmpty || reTest m cs

/-- `String.prototype.replace` with a non-global pattern and empty
replacement: keep characters up to the leftmost matching position, then
resume at the engine's preferred remainder. -/
def reStrip (m : List Char → List (List Char)) : List Char → List Char
  | [] =>
    match m [] with
    | r :: _ => r
    | [] => []
  | c :: cs =>
    match m (c :: cs) with
    | r :: _ => r
    | [] => c :: reStrip m cs

/-- The opt-in check on the fetched `about` text. -/
def optInCheck (u about : List Char) : Bool := reTest (userAddrCheckM u) about

/-- The marker-removal step applied to the bio before rendering. -/
def stripMarker (u s : List Char) : List Char := reStrip (userAddrCheckM u) s

/-- Substring test used to state claims about marker presence. -/
def startsSeq : List Char → List Char → Bool
  | [], _ => true
  | _ :: _, [] => false
  | a :: as, b :: bs => a == b && startsSeq as bs

/-- `containsSeq needle haystack`: the needle occurs contiguously. -/
def containsSeq (n : List Char) : List Char → Bool
  | [] => startsSeq n []
  | c :: cs => startsSeq n (c :: cs) || containsSeq n cs

/-- `strFits p v`: the candidate text `v` is accepted, character by
character, by the interpolated pattern string `p` (`.` positions accept
any non-line-terminator, others compare case-insensitively). -/
def strFits : List Char → List Char → Bool
  | [], [] => true
  | p :: ps, c :: cs =>
    (if p = '.' then !isLineTerm c else Char.toLower c == Char.toLower p) && strFits ps cs
  | _, _ => false

lemma mem_mSeq {m1 m2 : List Char → List (List Char)} {s r q : List Char}
    (h1 : r ∈ m1 s) (h2 : q ∈ m2 r) : q ∈ mSeq m1 m2 s := by
  rw [mSeq]
  exact List.mem_flatten.mpr ⟨m2 r, List.mem_map_of_mem _ h1, h2⟩

lemma mem_mOpt_self (m : List Char → List (List Char)) (s : List Char) :
    s ∈ mOpt m s := by
  rw [mOpt]
  exact List.mem_append_right _ (List.mem_singleton_self _)

lemma mem_mOpt {m : List Char → List (List Char)} {s r : List Char}
    (h : r ∈ m s) : r ∈ mOpt m s := by
  rw [mOpt]
  exact List.mem_append_left _ h

lemma mem_mWsL_self (s : List Char) : s ∈ mWsL s := by
  cases s with
  | nil => exact List.mem_singleton_self _
  | cons c cs =>
    rw [mWsL, wsRems]
    exact List.mem_cons_self _ _

lemma mem_mWsG_self (s : List Char) : s ∈ mWsG s := by
  rw [mWsG, List.mem_reverse]
  exact mem_mWsL_self s

lemma mem_mAlt_left {m1 m2 : List Char → List (List Char)} {s r : List Char}
    (h : r ∈ m1 s) : r ∈ mAlt m1 m2 s :=
  List.mem_append_left _ h

lemma mem_mAlt_right {m1 m2 : List Char → List (List Char)} {s r : List Char}
    (h : r ∈ m2 s) : r ∈ mAlt m1 m2 s :=
  List.mem_append_right _ h

lemma litMatch_self : ∀ p : List Char, ∀ rest, litMatch p (p ++ rest) = some rest := by
  intro p
  induction p with
  | nil => intro rest; rfl
  | cons c cs ih =>
    intro rest
    rw [List.cons_append, litMatch, if_pos rfl, ih]

lemma mem_mLit_self (p rest : List Char) : rest ∈ mLit p (p ++ rest) := by
  rw [mLit, litMatch_self]
  exact List.mem_singleton_self _

lemma mem_mStr_fits : ∀ p w : List Char, strFits p w = true →
    ∀ rest, rest ∈ mStr p (w ++ rest) := by
  intro p
  induction p with
  | nil =>
    intro w hfit rest
    cases w with
    | nil => exact List.mem_singleton_self _
    | cons c cs => simp [strFits] at hfit
  | cons p ps ih =>
    intro w hfit rest
    cases w with
    | nil => simp [strFits] at hfit
    | cons c cs =>
      have hfit' : ((if p = '.' then !isLineTerm c
          else Char.toLower c == Char.toLower p) && strFits ps cs) = true := hfit
      obtain ⟨h1, h2⟩ := Bool.and_eq_true _ _ |>.mp hfit'
      rw [mStr]
      refine mem_mSeq (r := cs ++ rest) ?_ (ih cs h2 rest)
      rw [mChar]
      by_cases hp : p = '.'
      · rw [if_pos hp]
        rw [if_pos hp] at h1
        rw [List.cons_append, mAny, if_neg (by simp [Bool.not_eq_true'] at h1; simp [h1])]
        exact List.mem_singleton_self _
      · rw [if_neg hp]
        rw [if_neg hp] at h1
        rw [List.cons_append, mLit, litMatch, if_pos (by exact beq_iff_eq.mp h1), litMatch]
        exact List.mem_singleton_self _

/-- Which of the optional scheme prefixes precedes the marker. -/
inductive SchemeOpt where
  | noneS
  | httpS
  | httpsS

/-- The literal text of each scheme option. -/
def schemeText : SchemeOpt → List Char
  | SchemeOpt.noneS => []
  | SchemeOpt.httpS => "http://".toList
  | SchemeOpt.httpsS => "https://".toList

lemma mem_scheme (sch : SchemeOpt) (rest : List Char) :
    rest ∈ mOpt mScheme (schemeText sch ++ rest) := by
  cases sch with
  | noneS => simpa using mem_mOpt_self mScheme rest
  | httpS =>
    refine mem_mOpt ?_
    exact mem_mSeq (mem_mLit_self "http".toList ("://".toList ++ rest))
      (mem_mSeq (mem_mOpt_self (mLit "s".toList) ("://".toList ++ rest))
        (mem_mLit_self "://".toList rest))
  | httpsS =>
    refine mem_mOpt ?_
    exact mem_mSeq (mem_mLit_self "http".toList ("s://".toList ++ rest))
      (mem_mSeq (mem_mOpt (mem_mLit_self "s".toList ("://".toList ++ rest)))
        (mem_mLit_self "://".toList rest))


lemma reTest_append (m : List Char → List (List Char)) :
    ∀ pre s : List Char, m s ≠ [] → reTest m (pre ++ s) = true := by
  intro pre
  induction pre with
  | nil =>
    intro s h
    cases s with
    | nil =>
      show (!(m []).isEmpty) = true
      cases hm : m [] with
      | nil => exact absurd hm h
      | cons r rs => simp [hm]
    | cons c cs =>
      show (!(m (c :: cs)).isEmpty || reTest m cs) = true
      cases hm : m (c :: cs) with
      | nil => exact absurd hm h
      | cons r rs => simp [hm]
  | cons p pre' ih =>
    intro s h
    show (!(m (p :: (pre' ++ s))).isEmpty || reTest m (pre' ++ s)) = true
    rw [ih s h]
    simp

/-- Claim C2 (amended): the opt-in check passes for every bio that
contains the marker — the decoded or encoded name followed by
`.at.hn`, case-insensitively, with an optional `http://`/`https://`
prefix, anywhere in the text; the code then removes only the leftmost
regular-expression match (the `replace` is non-global), so for the
spec's single-marker example bio the marker is gone from the text
handed to the renderer. -/
theorem c2_optIn_marker_amended (u pre post v1 v2 : List Char)
    (sch : SchemeOpt) (useEnc : Bool)
    (h1 : strFits (if useEnc then encodeUsername u else decodeUsername u) v1 = true)
    (h2 : strFits ".at.hn".toList v2 = true) :
    optInCheck u (pre ++ (schemeText sch ++ (v1 ++ (v2 ++ post)))) = true ∧
    stripMarker "alice".toList "please visit alice.at.hn".toList = "please visit".toList ∧
    containsSeq "alice.at.hn".toList
      (stripMarker "alice".toList "please visit alice.at.hn".toList) = false := by
  refine ⟨?_, by decide, by decide⟩
  rw [optInCheck]
  apply reTest_append
  apply List.ne_nil_of_mem (a := post)
  rw [userAddrCheckM]
  refine mem_mSeq (mem_mOpt_self _ _) ?_
  refine mem_mSeq (mem_mWsL_self _) ?_
  refine mem_mSeq (mem_scheme sch _) ?_
  refine mem_mSeq (r := v2 ++ post) ?_ ?_
  · cases useEnc with
    | true =>
      rw [if_pos rfl] at h1
      exact mem_mAlt_right (mem_mStr_fits _ v1 h1 (v2 ++ post))
    | false =>
      rw [if_neg (by simp)] at h1
      exact mem_mAlt_left (mem_mStr_fits _ v1 h1 (v2 ++ post))
  refine mem_mSeq (mem_mStr_fits _ v2 h2 post) ?_
  exact mem_mSeq (mem_mWsG_self _) (mem_mOpt_self _ _)

/-- Claim C2 counterexample: a bio holding the literal marker twice
passes the opt-in check, but after the (non-global) marker removal the
marker still occurs in the text that goes on to rendering, so the
marker does appear in the rendered output. -/
theorem c2_optIn_marker_cx :
    optInCheck "alice".toList "alice.at.hn alice.at.hn".toList = true ∧
    containsSeq "alice.at.hn".toList
      (stripMarker "alice".toList "alice.at.hn alice.at.hn".toList) = true := by
  decide

/-- Witness for C2 at the plain decoded marker with no scheme. -/
theorem c2_optIn_marker_witness :
    optInCheck "alice".toList
      ([] ++ (schemeText SchemeOpt.noneS ++
        ("alice".toList ++ (".at.hn".toList ++ [])))) = true :=
  (c2_optIn_marker_amended "alice".toList [] [] "alice".toList ".at.hn".toList
    SchemeOpt.noneS false (by decide) (by decide)).1

/-- Claim C10: the dots of `.at.hn` (and of the interpolated name) are
unescaped in the pattern, so they match any character: the bio
`aliceXatXhn` contains neither the decoded nor the encoded literal
marker `alice.at.hn`, yet the opt-in check passes for account `alice`. -/
theorem c10_unescaped_dots :
    optInCheck "alice".toList "aliceXatXhn".toList = true ∧
    containsSeq "alice.at.hn".toList "aliceXatXhn".toList = false ∧
    encodeUsername "alice".toList = "alice".toList := by
  decide

/-! ## Link renderer policy -/

/-- `KARMA_LINK_FOLLOW_MIN` from the source. -/
def karmaLinkFollowMin : Int := 200

/-- `String.prototype.trim`: strip leading and trailing whitespace. -/
def jsTrim (s : List Char) : List Char :=
  ((s.dropWhile isSpaceJs).reverse.dropWhile isSpaceJs).reverse

/-- Case-insensitive prefix test (the anchored `/^javascript:/i`). -/
def ciStartsWith : List Char → List Char → Bool
  | [], _ => true
  | _ :: _, [] => false
  | p :: ps, c :: cs => Char.toLower c == Char.toLower p && ciStartsWith ps cs

/-- The renderer's rejection test on a link target. -/
def isJsScheme (href : List Char) : Bool :=
  ciStartsWith "javascript:".toList (jsTrim href)

/-- The `rel` attribute value emitted for a link: `nofollow` is
appended unless karma exceeds `KARMA_LINK_FOLLOW_MIN`. -/
def relAttr (karma : Int) : List Char :=
  "noopener noreferrer ".toList ++
    (if karma > karmaLinkFollowMin then [] else "nofollow".toList)

/-- The custom `marked` link renderer.  `enc` stands for the external
`encodeURI`, `sans` for `sanitizeHtml` with an empty allow-list. -/
def linkHtml (enc sans : List Char → List Char) (karma : Int)
    (href title txt : List Char) : List Char :=
  if isJsScheme href then []
  else
    "<a href=\"".toList ++ enc href ++ "\" title=\"".toList ++ sans title ++
      "\" target=\"_blank\" rel=\"".toList ++ relAttr karma ++ "\">".toList ++
      sans txt ++ "</a>".toList

/-- Claim C4: a link whose (trimmed) target starts with `javascript:`
is dropped entirely; the emitted `rel` attribute carries `nofollow`
exactly when karma does not exceed 200; karma 50 gets `nofollow` and
karma 500 does not. -/
theorem c4_link_policy (enc sans : List Char → List Char) (karma : Int)
    (href title txt : List Char) :
    (isJsScheme href = true → linkHtml enc sans karma href title txt = []) ∧
    (containsSeq "nofollow".toList (relAttr karma) = true ↔ karma ≤ 200) ∧
    containsSeq "nofollow".toList (relAttr 50) = true ∧
    containsSeq "nofollow".toList (relAttr 500) = false := by
  refine ⟨fun h => by rw [linkHtml, if_pos h], ?_, by decide, by decide⟩
  by_cases hk : karma > karmaLinkFollowMin
  · have hrel : relAttr karma = "noopener noreferrer ".toList := by
      rw [relAttr, if_pos hk, List.append_nil]
    rw [hrel]
    rw [show containsSeq "nofollow".toList "noopener noreferrer ".toList = false from by decide]
    constructor
    · intro h
      exact absurd h (by decide)
    · intro h
      have : karma ≤ 200 := h
      have : ¬ karma ≤ 200 := by
        rw [karmaLinkFollowMin] at hk
        omega
      omega
  · have hk' : karma ≤ 200 := by
      rw [karmaLinkFollowMin] at hk
      omega
    have hrel : relAttr karma =
        "noopener noreferrer ".toList ++ "nofollow".toList := by
      rw [relAttr, if_neg hk]
    rw [hrel]
    rw [show containsSeq "nofollow".toList
      ("noopener noreferrer ".toList ++ "nofollow".toList) = true from by decide]
    simp [hk']

/-- Witness for C4: a `javascript:` target is dropped and low karma
forces `nofollow`. -/
theorem c4_link_policy_witness :
    linkHtml (fun s => s) (fun s => s) 50 "javascript:alert(1)".toList [] [] = [] ∧
    containsSeq "nofollow".toList (relAttr 50) = true :=
  ⟨(c4_link_policy (fun s => s) (fun s => s) 50 "javascript:alert(1)".toList [] []).1
      (by decide),
    (c4_link_policy (fun s => s) (fun s => s) 50 [] [] []).2.2.1⟩

/-! ## Cache tiers, request handler and the timeout race

The two in-memory LRU tiers are modelled as association lists from the
cache key to the insertion time and the stored HTML; a lookup only hits
while the entry's age is below the tier's time-to-live (`allowStale:
false`).  The persistent tier is an association list from the key to
the file content (the md5 file naming is modelled by keying on the
cache key itself).  Size-capped eviction is not needed by any property
below and is not modelled; hits are stated on entries actually
present. -/

/-- `shortTermCache` time-to-live (ms). -/
def shortTtl : Nat := 1000 * 5

/-- `midTermCache` time-to-live (ms). -/
def midTtl : Nat := 1000 * 60 * 60 * 3

/-- A JavaScript word character, the `\w` class. -/
def wordChar (c : Char) : Bool := wAlphaStr.contains c

/-- The handler's validation `user && /\w/.test(user) && user.length < 255`:
the string is non-empty, contains a word character, and is short enough. -/
def validUser (u : List Char) : Bool :=
  !u.isEmpty && u.any wordChar && decide (u.length < 255)

/-- Lookup in an in-memory tier (key, insertion time, value). -/
def tierLookup (m : List (List Char × Nat × List Char)) (k : List Char) :
    Option (Nat × List Char) :=
  match m with
  | [] => none
  | (k', t, v) :: rest => if k' = k then some (t, v) else tierLookup rest k

/-- Remove a key from an in-memory tier. -/
def tierErase (m : List (List Char × Nat × List Char)) (k : List Char) :
    List (List Char × Nat × List Char) :=
  match m with
  | [] => []
  | (k', t, v) :: rest =>
    if k' = k then tierErase rest k else (k', t, v) :: tierErase rest k

/-- `cache.set`: replace any previous entry, stamping the current time. -/
def tierSet (m : List (List Char × Nat × List Char)) (k : List Char)
    (t : Nat) (v : List Char) : List (List Char × Nat × List Char) :=
  (k, t, v) :: tierErase m k

/-- `cache.has`/`cache.get` under `allowStale: false`: only an entry
younger than the time-to-live is returned. -/
def tierGetFresh (ttl now : Nat) (m : List (List Char × Nat × List Char))
    (k : List Char) : Option (List Char) :=
  match tierLookup m k with
  | some (t, v) => if now < t + ttl then some v else none
  | none => none

/-- Lookup in the persistent file store. -/
def fileLookup (m : List (List Char × List Char)) (k : List Char) :
    Option (List Char) :=
  match m with
  | [] => none
  | (k', v) :: rest => if k' = k then some v else fileLookup rest k

/-- `fs.unlink` (errors swallowed): remove the key if present. -/
def fileErase (m : List (List Char × List Char)) (k : List Char) :
    List (List Char × List Char) :=
  match m with
  | [] => []
  | (k', v) :: rest =>
    if k' = k then fileErase rest k else (k', v) :: fileErase rest k

/-- `fs.writeFile`: replace the stored content. -/
def fileSet (m : List (List Char × List Char)) (k : List Char) (v : List Char) :
    List (List Char × List Char) :=
  (k, v) :: fileErase m k

/-- The mutable cache state shared by all requests. -/
structure SrvState where
  shortT : List (List Char × Nat × List Char)
  midT : List (List Char × Nat × List Char)
  files : List (List Char × List Char)

/-- Pre-dispatch outcome of the `/user` handler. -/
inductive HStep where
  | crashed
  | overloaded
  | badReq
  | shortHit (html : List Char)
  | midHit (html : List Char)
  | fileHit (html : List Char)
  | dispatchFetch

/-- Status code sent for a pre-dispatch outcome (`none` when no
response is decided at this stage: a crash of the async handler, or
continuation into the fetch dispatch). -/
def stepStatus : HStep → Option Nat
  | HStep.crashed => none
  | HStep.overloaded => some 429
  | HStep.badReq => some 400
  | HStep.shortHit _ => some 200
  | HStep.midHit _ => some 200
  | HStep.fileHit _ => some 200
  | HStep.dispatchFetch => none

/-- The `/user` handler up to the point where a fetch job would be
dispatched, in source order: the backlog check runs first (before the
parameter is even validated); a missing `user` parameter crashes on
`encodeUsername(null)`; the short-term tier is consulted even on a
forced refresh; the mid-term tier and the file store are skipped on
refresh; a file hit is written back into both in-memory tiers. -/
def handlerStep (queueSize : Nat) (userO : Option (List Char)) (refresh : Bool)
    (now : Nat) (st : SrvState) : HStep × SrvState :=
  if queueSize > 1 then (HStep.overloaded, st)
  else
    match userO with
    | none => (HStep.crashed, st)
    | some u =>
      if validUser u then
        let key := encodeUsername u
        match tierGetFresh shortTtl now st.shortT key with
        | some html => (HStep.shortHit html, st)
        | none =>
          if refresh then (HStep.dispatchFetch, st)
          else
            match tierGetFresh midTtl now st.midT key with
            | some html => (HStep.midHit html, st)
            | none =>
              match fileLookup st.files key with
              | some content =>
                (HStep.fileHit content,
                  { shortT := tierSet st.shortT key now content,
                    midT := tierSet st.midT key now content,
                    files := st.files })
              | none => (HStep.dispatchFetch, st)
      else (HStep.badReq, st)

/-- The JSON record returned by the profile API; `username` and
`about` may be absent or null. -/
structure ProfileData where
  username : Option (List Char)
  about : Option (List Char)
  karma : Int
  created : List Char

/-- Result of running `fetchProfile`'s body. -/
inductive FetchOut where
  | okPage (html : List Char) (redirected : Bool)
  | errPage

/-- Clearing all three cache tiers for a key (the opt-out branch);
`fs.unlink` failure on a missing file is swallowed, so this is total. -/
def cacheClear (st : SrvState) (key : List Char) : SrvState :=
  { shortT := tierErase st.shortT key,
    midT := tierErase st.midT key,
    files := fileErase st.files key }

/-- The body of `fetchProfile` for a raw name `u`.  `upstream = none`
is a network error or non-success status (the `fetchData` throw);
otherwise the opt-in condition `profileData?.username &&
profileData.about.match(userAddrCheckR)` is evaluated: a falsy
`username` reaches the opt-out branch (clear caches, throw, error
page); a truthy `username` with a null `about` throws inside the check
(error page, caches untouched); a non-matching `about` reaches the
opt-out branch; a match renders and writes through all three tiers,
then either redirects (on refresh) or responds 200.  `render` stands
for the external template/markdown pipeline producing `responseHtml`. -/
def fetchProfileRun (u : List Char) (refresh : Bool)
    (upstream : Option ProfileData)
    (render : List Char → ProfileData → List Char) (now : Nat)
    (st : SrvState) : FetchOut × SrvState :=
  let key := encodeUsername u
  match upstream with
  | none => (FetchOut.errPage, st)
  | some pd =>
    match pd.username with
    | none => (FetchOut.errPage, cacheClear st key)
    | some un =>
      if un.isEmpty then (FetchOut.errPage, cacheClear st key)
      else
        match pd.about with
        | none => (FetchOut.errPage, st)
        | some ab =>
          if optInCheck u ab then
            let html := render u pd
            (FetchOut.okPage html refresh,
              { shortT := tierSet st.shortT key now html,
                midT := tierSet st.midT key now html,
                files := fileSet st.files key html })
          else (FetchOut.errPage, cacheClear st key)

/-- Events that can reach a request after its job was dispatched. -/
inductive RaceEv where
  | jobDone
  | timeoutFire

/-- Per-request context: the `responseSent` flag, whether the
`Promise.race` has already resolved, the statuses sent so far, and the
shared cache state. -/
structure RunCtx where
  sent : Bool
  raceDone : Bool
  responses : List Nat
  st : SrvState

/-- The `respond` helper: a no-op when a response was already sent;
otherwise it records the status and, when a cache key is supplied,
writes the body through both in-memory tiers. -/
def respondCtx (ctx : RunCtx) (status : Nat) (keyO : Option (List Char))
    (html : List Char) (now : Nat) : RunCtx :=
  if ctx.sent then ctx
  else
    { sent := true,
      raceDone := ctx.raceDone,
      responses := ctx.responses ++ [status],
      st :=
        match keyO with
        | some k =>
          { shortT := tierSet ctx.st.shortT k now html,
            midT := tierSet ctx.st.midT k now html,
            files := ctx.st.files }
        | none => ctx.st }

/-- One event of the race.  Job completion runs `fetchProfile` against
the shared state and answers through `respond` (or the
`responseSent`-guarded 303 redirect); it resolves the race, so a later
timeout does nothing.  A timeout that wins the race answers 202; the
job itself is never cancelled. -/
def stepEv (u : List Char) (refresh : Bool) (upstream : Option ProfileData)
    (render : List Char → ProfileData → List Char) (now : Nat)
    (ctx : RunCtx) : RaceEv → RunCtx
  | RaceEv.jobDone =>
    match fetchProfileRun u refresh upstream render now ctx.st with
    | (FetchOut.okPage html false, st') =>
      { respondCtx { ctx with st := st' } 200 (some (encodeUsername u)) html now
          with raceDone := true }
    | (FetchOut.okPage html true, st') =>
      { respondCtx { ctx with st := st' } 303 none html now with raceDone := true }
    | (FetchOut.errPage, st') =>
      { respondCtx { ctx with st := st' } 404 none [] now with raceDone := true }
  | RaceEv.timeoutFire =>
    if ctx.raceDone then ctx
    else { respondCtx ctx 202 none [] now with raceDone := true }

/-- Process a sequence of race events. -/
def runEvents (u : List Char) (refresh : Bool) (upstream : Option ProfileData)
    (render : List Char → ProfileData → List Char) (now : Nat) :
    List RaceEv → RunCtx → RunCtx
  | [], ctx => ctx
  | e :: es, ctx =>
    runEvents u refresh upstream render now es (stepEv u refresh upstream render now ctx e)

lemma tierLookup_set (m : List (List Char × Nat × List Char)) (k : List Char)
    (t : Nat) (v : List Char) : tierLookup (tierSet m k t v) k = some (t, v) := by
  rw [tierSet, tierLookup, if_pos rfl]

lemma tierLookup_erase (m : List (List Char × Nat × List Char)) (k : List Char) :
    tierLookup (tierErase m k) k = none := by
  induction m with
  | nil => rfl
  | cons e rest ih =>
    rcases e with ⟨k', t, v⟩
    rw [tierErase]
    by_cases h : k' = k
    · rw [if_pos h]
      exact ih
    · rw [if_neg h, tierLookup, if_neg h]
      exact ih

lemma fileLookup_set (m : List (List Char × List Char)) (k v : List Char) :
    fileLookup (fileSet m k v) k = some v := by
  rw [fileSet, fileLookup, if_pos rfl]

lemma fileLookup_erase (m : List (List Char × List Char)) (k : List Char) :
    fileLookup (fileErase m k) k = none := by
  induction m with
  | nil => rfl
  | cons e rest ih =>
    rcases e with ⟨k', v⟩
    rw [fileErase]
    by_cases h : k' = k
    · rw [if_pos h]
      exact ih
    · rw [if_neg h, fileLookup, if_neg h]
      exact ih

/-- Number of responses already sent plus the remaining budget of the
`responseSent` guard. -/
def potential (ctx : RunCtx) : Nat :=
  ctx.responses.length + (if ctx.sent then 0 else 1)

lemma potential_respond (ctx : RunCtx) (status : Nat) (keyO : Option (List Char))
    (html : List Char) (now : Nat) :
    potential (respondCtx ctx status keyO html now) = potential ctx := by
  rw [respondCtx.eq_def]
  by_cases h : ctx.sent
  · rw [if_pos h]
  · rw [if_neg h]
    rw [potential, potential]
    simp [h]

lemma potential_raceDone (c : RunCtx) : potential { c with raceDone := true } = potential c := rfl

lemma potential_setSt (c : RunCtx) (s : SrvState) : potential { c with st := s } = potential c := rfl

lemma potential_step (u : List Char) (refresh : Bool) (upstream : Option ProfileData)
    (render : List Char → ProfileData → List Char) (now : Nat) (ctx : RunCtx)
    (e : RaceEv) : potential (stepEv u refresh upstream render now ctx e) = potential ctx := by
  cases e with
  | jobDone =>
    rcases hf : fetchProfileRun u refresh upstream render now ctx.st with ⟨out, st'⟩
    cases out with
    | okPage html red =>
      cases red with
      | false =>
        simp only [stepEv, hf]
        rw [potential_raceDone, potential_respond, potential_setSt]
      | true =>
        simp only [stepEv, hf]
        rw [potential_raceDone, potential_respond, potential_setSt]
    | errPage =>
      simp only [stepEv, hf]
      rw [potential_raceDone, potential_respond, potential_setSt]
  | timeoutFire =>
    rw [stepEv]
    by_cases h : ctx.raceDone
    · rw [if_pos h]
    · rw [if_neg h, potential_raceDone, potential_respond]

lemma potential_run (u : List Char) (refresh : Bool) (upstream : Option ProfileData)
    (render : List Char → ProfileData → List Char) (now : Nat) :
    ∀ (evs : List RaceEv) (ctx : RunCtx),
      potential (runEvents u refresh upstream render now evs ctx) = potential ctx := by
  intro evs
  induction evs with
  | nil => intro ctx; rfl
  | cons e es ih =>
    intro ctx
    rw [runEvents, ih, potential_step]

/-- Claim C6: starting from a fresh request (`responseSent` false, race
unresolved), any sequence of timeout and job-completion events — either
order, any outcome, even repeats — produces at most one response. -/
theorem c6_respond_once (u : List Char) (refresh : Bool) (upstream : Option ProfileData)
    (render : List Char → ProfileData → List Char) (now : Nat) (st : SrvState)
    (evs : List RaceEv) :
    (runEvents u refresh upstream render now evs
      (RunCtx.mk false false [] st)).responses.length ≤ 1 := by
  have h2 : potential (runEvents u refresh upstream render now evs
      (RunCtx.mk false false [] st)) = 1 := by
    rw [potential_run]
    rfl
  rw [potential] at h2
  by_cases hs : (runEvents u refresh upstream render now evs
      (RunCtx.mk false false [] st)).sent = true
  · rw [if_pos hs] at h2
    omega
  · rw [if_neg hs] at h2
    omega

/-- Claim C3: when the upstream fetch succeeds (a profile record with a
truthy `username` and a present `about` text arrives) but the opt-in
check is false, the job answers 404 with the guidance page, that error
response is not written to any tier, and the key is removed from the
short-term tier, the mid-term tier and the persistent file store —
whether or not the file existed, since the `unlink` failure is
swallowed. -/
theorem c3_notOptedIn_invalidates (u : List Char) (refresh : Bool) (pd : ProfileData)
    (un ab : List Char) (render : List Char → ProfileData → List Char)
    (now : Nat) (st : SrvState)
    (hun : pd.username = some un) (hne : un.isEmpty = false)
    (hab : pd.about = some ab) (hchk : optInCheck u ab = false) :
    (runEvents u refresh (some pd) render now [RaceEv.jobDone]
      (RunCtx.mk false false [] st)).responses = [404] ∧
    tierLookup (runEvents u refresh (some pd) render now [RaceEv.jobDone]
      (RunCtx.mk false false [] st)).st.shortT (encodeUsername u) = none ∧
    tierLookup (runEvents u refresh (some pd) render now [RaceEv.jobDone]
      (RunCtx.mk false false [] st)).st.midT (encodeUsername u) = none ∧
    fileLookup (runEvents u refresh (some pd) render now [RaceEv.jobDone]
      (RunCtx.mk false false [] st)).st.files (encodeUsername u) = none := by
  have hfetch : fetchProfileRun u refresh (some pd) render now st =
      (FetchOut.errPage, cacheClear st (encodeUsername u)) := by
    rw [fetchProfileRun.eq_def]
    simp [hun, hab, hne, hchk]
  have hrun : runEvents u refresh (some pd) render now [RaceEv.jobDone]
      (RunCtx.mk false false [] st) =
      RunCtx.mk true true [404] (cacheClear st (encodeUsername u)) := by
    rw [runEvents, runEvents]
    simp [stepEv, hfetch, respondCtx]
  rw [hrun]
  exact ⟨rfl, tierLookup_erase _ _, tierLookup_erase _ _, fileLookup_erase _ _⟩

/-- Witness for C3: a profile whose bio lacks the marker yields a 404
and erases a pre-existing cache entry in every tier. -/
theorem c3_notOptedIn_invalidates_witness :
    (runEvents "alice".toList false
      (some (ProfileData.mk (some "alice".toList) (some "no marker here".toList) 0 []))
      (fun _ _ => "PAGE".toList) 0 [RaceEv.jobDone]
      (RunCtx.mk false false []
        (SrvState.mk [("alice".toList, 0, "OLD".toList)]
          [("alice".toList, 0, "OLD".toList)]
          [("alice".toList, "OLD".toList)]))).responses = [404] ∧
    fileLookup (runEvents "alice".toList false
      (some (ProfileData.mk (some "alice".toList) (some "no marker here".toList) 0 []))
      (fun _ _ => "PAGE".toList) 0 [RaceEv.jobDone]
      (RunCtx.mk false false []
        (SrvState.mk [("alice".toList, 0, "OLD".toList)]
          [("alice".toList, 0, "OLD".toList)]
          [("alice".toList, "OLD".toList)]))).st.files
      (encodeUsername "alice".toList) = none := by
  have h := c3_notOptedIn_invalidates "alice".toList false
    (ProfileData.mk (some "alice".toList) (some "no marker here".toList) 0 [])
    "alice".toList "no marker here".toList (fun _ _ => "PAGE".toList) 0
    (SrvState.mk [("alice".toList, 0, "OLD".toList)]
      [("alice".toList, 0, "OLD".toList)]
      [("alice".toList, "OLD".toList)])
    rfl rfl rfl (by decide)
  exact ⟨h.1, h.2.2.2⟩

/-- Claim C5: when the timeout fires before the job completes, the
requester gets a single 202; the job still runs to completion, writes
the rendered page through the file store and both in-memory tiers, and
a subsequent request for the same key within the short-term window is
served that page from the short-term tier. -/
theorem c5_timeout_then_cached (u : List Char) (pd : ProfileData) (un ab : List Char)
    (render : List Char → ProfileData → List Char) (st : SrvState)
    (now nowQ qs : Nat)
    (hun : pd.username = some un) (hne : un.isEmpty = false)
    (hab : pd.about = some ab) (hchk : optInCheck u ab = true)
    (hq : qs ≤ 1) (hv : validUser u = true) (hfresh : nowQ < now + shortTtl) :
    (runEvents u false (some pd) render now [RaceEv.timeoutFire, RaceEv.jobDone]
      (RunCtx.mk false false [] st)).responses = [202] ∧
    handlerStep qs (some u) false nowQ
        (runEvents u false (some pd) render now [RaceEv.timeoutFire, RaceEv.jobDone]
          (RunCtx.mk false false [] st)).st =
      (HStep.shortHit (render u pd),
        (runEvents u false (some pd) render now [RaceEv.timeoutFire, RaceEv.jobDone]
          (RunCtx.mk false false [] st)).st) ∧
    tierLookup (runEvents u false (some pd) render now
        [RaceEv.timeoutFire, RaceEv.jobDone]
        (RunCtx.mk false false [] st)).st.midT (encodeUsername u) =
      some (now, render u pd) ∧
    fileLookup (runEvents u false (some pd) render now
        [RaceEv.timeoutFire, RaceEv.jobDone]
        (RunCtx.mk false false [] st)).st.files (encodeUsername u) =
      some (render u pd) := by
  have hfetch : fetchProfileRun u false (some pd) render now st =
      (FetchOut.okPage (render u pd) false,
        SrvState.mk (tierSet st.shortT (encodeUsername u) now (render u pd))
          (tierSet st.midT (encodeUsername u) now (render u pd))
          (fileSet st.files (encodeUsername u) (render u pd))) := by
    rw [fetchProfileRun.eq_def]
    simp [hun, hab, hne, hchk]
  have hrun : runEvents u false (some pd) render now
      [RaceEv.timeoutFire, RaceEv.jobDone] (RunCtx.mk false false [] st) =
      RunCtx.mk true true [202]
        (SrvState.mk (tierSet st.shortT (encodeUsername u) now (render u pd))
          (tierSet st.midT (encodeUsername u) now (render u pd))
          (fileSet st.files (encodeUsername u) (render u pd))) := by
    rw [runEvents, runEvents, runEvents]
    simp [stepEv, respondCtx, hfetch]
  rw [hrun]
  have hq' : ¬ qs > 1 := by omega
  refine ⟨rfl, ?_, tierLookup_set _ _ _ _, fileLookup_set _ _ _⟩
  rw [handlerStep.eq_def, if_neg hq']
  simp [hv, tierGetFresh, tierLookup_set, hfresh]

/-- Witness for C5 at a concrete opted-in profile. -/
theorem c5_timeout_then_cached_witness :
    (runEvents "alice".toList false
      (some (ProfileData.mk (some "alice".toList)
        (some "please visit alice.at.hn".toList) 100 []))
      (fun _ _ => "PAGE".toList) 0 [RaceEv.timeoutFire, RaceEv.jobDone]
      (RunCtx.mk false false [] (SrvState.mk [] [] []))).responses = [202] ∧
    handlerStep 0 (some "alice".toList) false 1
        (runEvents "alice".toList false
          (some (ProfileData.mk (some "alice".toList)
            (some "please visit alice.at.hn".toList) 100 []))
          (fun _ _ => "PAGE".toList) 0 [RaceEv.timeoutFire, RaceEv.jobDone]
          (RunCtx.mk false false [] (SrvState.mk [] [] []))).st =
      (HStep.shortHit "PAGE".toList,
        (runEvents "alice".toList false
          (some (ProfileData.mk (some "alice".toList)
            (some "please visit alice.at.hn".toList) 100 []))
          (fun _ _ => "PAGE".toList) 0 [RaceEv.timeoutFire, RaceEv.jobDone]
          (RunCtx.mk false false [] (SrvState.mk [] [] []))).st) := by
  have h := c5_timeout_then_cached "alice".toList
    (ProfileData.mk (some "alice".toList) (some "please visit alice.at.hn".toList) 100 [])
    "alice".toList "please visit alice.at.hn".toList
    (fun _ _ => "PAGE".toList) (SrvState.mk [] [] []) 0 1 0
    rfl rfl rfl (by decide) (by decide) (by decide) (by decide)
  exact ⟨h.1, h.2.1⟩

/-- Claim C7: with more than one job already waiting, the handler
answers 429 before even validating the request, and neither the caches
nor the queue gain anything (the returned state is unchanged and no
dispatch outcome is produced). -/
theorem c7_overloaded (qs : Nat) (userO : Option (List Char)) (refresh : Bool)
    (now : Nat) (st : SrvState) (h : qs > 1) :
    handlerStep qs userO refresh now st = (HStep.overloaded, st) ∧
    stepStatus HStep.overloaded = some 429 :=
  ⟨by rw [handlerStep.eq_def, if_pos h], rfl⟩

/-- Witness for C7 with two waiting jobs. -/
theorem c7_overloaded_witness :
    handlerStep 2 none false 0 (SrvState.mk [] [] []) =
      (HStep.overloaded, SrvState.mk [] [] []) ∧
    stepStatus HStep.overloaded = some 429 :=
  c7_overloaded 2 none false 0 (SrvState.mk [] [] []) (by decide)

/-- Claim C8: a fresh short-term entry (age below the 5-second
time-to-live) is served verbatim — even on a forced refresh — the
handler never reaches the dispatch stage, and the state is untouched. -/
theorem c8_shortTerm_hit (qs : Nat) (u : List Char) (refresh : Bool)
    (now t0 : Nat) (html : List Char) (st : SrvState)
    (hq : qs ≤ 1) (hv : validUser u = true)
    (hl : tierLookup st.shortT (encodeUsername u) = some (t0, html))
    (hfresh : now < t0 + shortTtl) :
    handlerStep qs (some u) refresh now st = (HStep.shortHit html, st) ∧
    (handlerStep qs (some u) refresh now st).1 ≠ HStep.dispatchFetch ∧
    stepStatus (HStep.shortHit html) = some 200 := by
  have hq' : ¬ qs > 1 := by omega
  have hmain : handlerStep qs (some u) refresh now st = (HStep.shortHit html, st) := by
    rw [handlerStep.eq_def, if_neg hq']
    simp [hv, tierGetFresh, hl, hfresh]
  refine ⟨hmain, ?_, rfl⟩
  rw [hmain]
  simp

/-- Witness for C8: a 100 ms old entry is served even on refresh. -/
theorem c8_shortTerm_hit_witness :
    handlerStep 0 (some "alice".toList) true 100
        (SrvState.mk [("alice".toList, 0, "HTML".toList)] [] []) =
      (HStep.shortHit "HTML".toList,
        SrvState.mk [("alice".toList, 0, "HTML".toList)] [] []) :=
  (c8_shortTerm_hit 0 "alice".toList true 100 0 "HTML".toList
    (SrvState.mk [("alice".toList, 0, "HTML".toList)] [] [])
    (by decide) (by decide) (by decide) (by decide)).1

/-- Claim C9 (amended): an upstream failure — the profile fetch throws,
or the opt-in check itself throws on a null `about` — is answered by
the catch-all 404 guidance page, and nothing is written to any cache
tier (the state is unchanged). -/
theorem c9_upstream_failure_amended (u : List Char) (refresh : Bool)
    (render : List Char → ProfileData → List Char) (now : Nat) (st : SrvState)
    (pd : ProfileData) (un : List Char) :
    ((runEvents u refresh none render now [RaceEv.jobDone]
        (RunCtx.mk false false [] st)).responses = [404] ∧
      (runEvents u refresh none render now [RaceEv.jobDone]
        (RunCtx.mk false false [] st)).st = st) ∧
    (pd.username = some un → un.isEmpty = false → pd.about = none →
      (runEvents u refresh (some pd) render now [RaceEv.jobDone]
        (RunCtx.mk false false [] st)).responses = [404] ∧
      (runEvents u refresh (some pd) render now [RaceEv.jobDone]
        (RunCtx.mk false false [] st)).st = st) := by
  constructor
  · have hfetch : fetchProfileRun u refresh none render now st = (FetchOut.errPage, st) := by
      rw [fetchProfileRun.eq_def]
    have hrun : runEvents u refresh none render now [RaceEv.jobDone]
        (RunCtx.mk false false [] st) = RunCtx.mk true true [404] st := by
      rw [runEvents, runEvents]
      simp [stepEv, hfetch, respondCtx]
    rw [hrun]
    exact ⟨rfl, rfl⟩
  · intro hun hne hab
    have hfetch : fetchProfileRun u refresh (some pd) render now st =
        (FetchOut.errPage, st) := by
      rw [fetchProfileRun.eq_def]
      simp [hun, hne, hab]
    have hrun : runEvents u refresh (some pd) render now [RaceEv.jobDone]
        (RunCtx.mk false false [] st) = RunCtx.mk true true [404] st := by
      rw [runEvents, runEvents]
      simp [stepEv, hfetch, respondCtx]
    rw [hrun]
    exact ⟨rfl, rfl⟩

/-- Claim C9 counterexample: at a concrete state, a failing upstream
fetch is answered with status 404 (the "cannot see you" page), not
with a 500 response as the claim states. -/
theorem c9_upstream_failure_cx :
    (runEvents "alice".toList false none (fun _ _ => []) 0 [RaceEv.jobDone]
      (RunCtx.mk false false [] (SrvState.mk [] [] []))).responses = [404] ∧
    ¬ (runEvents "alice".toList false none (fun _ _ => []) 0 [RaceEv.jobDone]
      (RunCtx.mk false false [] (SrvState.mk [] [] []))).responses = [500] := by
  decide

/-- Witness for C9 at a profile whose `about` field is null. -/
theorem c9_upstream_failure_witness :
    (runEvents "alice".toList false
      (some (ProfileData.mk (some "alice".toList) none 0 [])) (fun _ _ => []) 0
      [RaceEv.jobDone] (RunCtx.mk false false [] (SrvState.mk [] [] []))).responses =
      [404] :=
  ((c9_upstream_failure_amended "alice".toList false (fun _ _ => []) 0
      (SrvState.mk [] [] []) (ProfileData.mk (some "alice".toList) none 0 [])
      "alice".toList).2 rfl rfl rfl).1
